import Mathlib

/-!
Shallow embedding of the amscrcuits netlist-synthesis engine (src/src/lib.rs).

Rust `HashMap`s are modelled as association lists (`List (String × α)`) with
first-match lookup; `IndexSet<Definition>` is modelled as a duplicate-free
`List Definition` with order-preserving insertion; `Rc<Entity>` sharing is
modelled by plain values; the interior-mutable child-configuration cache
(`RefCell<HashMap<String, Configuration>>`) is modelled by explicit state
passing: operations that mutate the cache return the updated `Configuration`.
The handlebars templating engine is external to the repository and is taken
as a parameter `render` with the substitution contract from the spec.
General recursion in `Configuration::definition` is modelled with a fuel
parameter; `none` means the fuel ran out.
-/

namespace Amscrcuits

/-- Model of `std::path::PathBuf`: either valid UTF-8 text, or a non-UTF-8
path of which only the lossy rendering is kept. -/
inductive PathBuf where
  | utf8 (s : String)
  | nonUtf8 (lossy : String)
deriving DecidableEq

/-- Rust `PathBuf::to_str`: `Some` exactly when the path is valid UTF-8. -/
def PathBuf.to_str : PathBuf → Option String
  | .utf8 s => some s
  | .nonUtf8 _ => none

/-- Rust `PathBuf::to_string_lossy`. -/
def PathBuf.to_string_lossy : PathBuf → String
  | .utf8 s => s
  | .nonUtf8 l => l

/-- Rust `enum Definition { Code(String), Library(PathBuf), Primitive }`. -/
inductive Definition where
  | code (s : String)
  | library (p : PathBuf)
  | primitive
deriving DecidableEq

/-- The handlebars `TemplateRenderError`, modelled by its message. -/
abbrev TemplateRenderError := String

/-- Rust `enum CodeError { DialectError, CompileError(String), TemplateError(..) }`. -/
inductive CodeError where
  | DialectError
  | CompileError (reason : String)
  | TemplateError (e : TemplateRenderError)
deriving DecidableEq

/-- Rust `struct RefArgs { name, generic, port }`: the three named bindings handed
to the templating service. -/
structure RefArgs where
  name : String
  generic : List (String × String)
  port : List (String × String)

/-- Rust `struct CodeArch { definition: Definition, reference: String }`. -/
structure CodeArch where
  definition : Definition
  reference : String
deriving DecidableEq

/-- Rust `struct CodeDialectArch { dialects: HashMap<String, CodeArch> }`. -/
structure CodeDialectArch where
  dialects : List (String × CodeArch)
deriving DecidableEq

/-- Rust `struct Symbol;` -/
inductive Symbol where
  | mk

mutual
/-- Rust `struct Entity { name, symbol, generic, port, archs }`. -/
inductive Entity where
  | mk (name : String) (symbol : Symbol) (generic : List String)
      (port : List String) (archs : List (String × Arch))

/-- Rust `enum Arch { Schematic(Schematic), Code(CodeDialectArch) }`. -/
inductive Arch where
  | schematic (s : Schematic)
  | code (c : CodeDialectArch)

/-- Rust `struct Schematic { toplevel: bool, instances: HashMap<String, Instance> }`. -/
inductive Schematic where
  | mk (toplevel : Bool) (instances : List (String × Instance))

/-- Rust `struct Instance { portmap, genericmap, x, y, entity }`. -/
inductive Instance where
  | mk (portmap : List (String × String)) (genericmap : List (String × String))
      (x : Int) (y : Int) (entity : Entity)
end

def Entity.name : Entity → String
  | .mk n _ _ _ _ => n

def Entity.generic : Entity → List String
  | .mk _ _ g _ _ => g

def Entity.port : Entity → List String
  | .mk _ _ _ p _ => p

def Entity.archs : Entity → List (String × Arch)
  | .mk _ _ _ _ a => a

def Schematic.toplevel : Schematic → Bool
  | .mk t _ => t

def Schematic.instances : Schematic → List (String × Instance)
  | .mk _ i => i

def Instance.portmap : Instance → List (String × String)
  | .mk pm _ _ _ _ => pm

def Instance.genericmap : Instance → List (String × String)
  | .mk _ gm _ _ _ => gm

def Instance.entity : Instance → Entity
  | .mk _ _ _ _ e => e

/-- Rust `struct Ngspice;` — the one `Simulator` implementation in the repository. -/
inductive NgspiceT where
  | mk
deriving DecidableEq

/-- Rust `struct Configuration<S> { sim, ent, arch, for_inst, all }`, specialized to
`S = Ngspice`. The memoized child-configuration cache `for_inst` is an explicit
field updated by state passing. -/
inductive Configuration where
  | mk (sim : NgspiceT) (ent : Entity) (arch : Option String)
      (for_inst : List (String × Configuration)) (all : List (String × String))

def Configuration.sim : Configuration → NgspiceT
  | .mk s _ _ _ _ => s

def Configuration.ent : Configuration → Entity
  | .mk _ e _ _ _ => e

def Configuration.arch : Configuration → Option String
  | .mk _ _ a _ _ => a

def Configuration.for_inst : Configuration → List (String × Configuration)
  | .mk _ _ _ f _ => f

def Configuration.all : Configuration → List (String × String)
  | .mk _ _ _ _ a => a

/-- Rust `HashMap::get`, on the association-list model: first entry whose key
matches. -/
def alookup {α : Type} : List (String × α) → String → Option α
  | [], _ => none
  | (k, v) :: rest, k2 => if k = k2 then some v else alookup rest k2

/-- Rust `Ngspice::get_dialect`: try the `"ngspice"` entry, fall back to the
generic `"spice"` entry. -/
def Ngspice.get_dialect (arch : CodeDialectArch) : Option CodeArch :=
  match alookup arch.dialects "ngspice" with
  | some c => some c
  | none => alookup arch.dialects "spice"

/-- The tier-3 scan loop of `Configuration::get_arch`: the first architecture
in stored order that is a `Schematic`, or a `Code` table for which the
simulator's dialect lookup succeeds. -/
def firstSupported : List (String × Arch) → Option Arch
  | [] => none
  | (_, a) :: rest =>
    match a with
    | .code cda => if (Ngspice.get_dialect cda).isSome then some a else firstSupported rest
    | .schematic _ => some a

/-- Rust `Configuration::get_arch`: explicit architecture name, else per-entity
global override, else the first architecture supporting this simulator. -/
def Configuration.get_arch (c : Configuration) : Option Arch :=
  match c.arch with
  | some a => alookup c.ent.archs a
  | none =>
    match alookup c.all c.ent.name with
    | some a => alookup c.ent.archs a
    | none => firstSupported c.ent.archs

/-- Rust `Configuration::get_conf`: the memoized child configuration for an
instance name. Returns `(child, updated parent)`: on a cache hit the parent is
unchanged and the cached child is returned regardless of `inst`; on a miss a
fresh child is built from the parent's simulator and override map and the
instance's entity, with no architecture chosen, and is inserted in the cache. -/
def Configuration.get_conf (c : Configuration) (name : String) (inst : Instance) :
    Configuration × Configuration :=
  match alookup c.for_inst name with
  | some child => (child, c)
  | none =>
    let child : Configuration := .mk c.sim inst.entity none [] c.all
    (child, .mk c.sim c.ent c.arch (c.for_inst ++ [(name, child)]) c.all)

/-- Store an updated child configuration back into the cache (the effect that
`subconf.definition()` has on the parent's `for_inst` map through the
`RefCell`). -/
def updateConf : List (String × Configuration) → String → Configuration →
    List (String × Configuration)
  | [], _, _ => []
  | (k, v) :: rest, name, c =>
    if k = name then (k, c) :: rest else (k, v) :: updateConf rest name c

def Configuration.set_inst (c : Configuration) (name : String) (child : Configuration) :
    Configuration :=
  .mk c.sim c.ent c.arch (updateConf c.for_inst name child) c.all

/-- Rust `IndexSet::insert` on the ordered duplicate-free list model: keep the
existing occurrence, else append at the end. -/
def indexInsert (l : List Definition) (d : Definition) : List Definition :=
  if d ∈ l then l else l ++ [d]

/-- Rust `IndexSet::extend`: insert every element in order, first occurrence wins. -/
def indexExtend (l : List Definition) (ds : List Definition) : List Definition :=
  ds.foldl indexInsert l

/-- The port loop of `spice_reference`: one ` <net>` column per declared port,
in declared order; a missing key is a `CompileError` naming the port and the
instance. -/
def portsText (port : List String) (portmap : List (String × String))
    (name : String) : Except CodeError String :=
  match port with
  | [] => .ok ""
  | p :: rest =>
    match alookup portmap p with
    | none => .error (.CompileError ("no " ++ p ++ " in " ++ name))
    | some v =>
      match portsText rest portmap name with
      | .error e => .error e
      | .ok t => .ok (" " ++ v ++ t)

/-- The generic loop of `spice_reference`: one ` name=value` pair per declared
generic, in declared order; a missing key is a `CompileError` naming the
generic. -/
def genericsText (generic : List String) (genericmap : List (String × String)) :
    Except CodeError String :=
  match generic with
  | [] => .ok ""
  | g :: rest =>
    match alookup genericmap g with
    | none => .error (.CompileError g)
    | some v =>
      match genericsText rest genericmap with
      | .error e => .error e
      | .ok t => .ok (" " ++ g ++ "=" ++ v ++ t)

/-- Rust `spice_reference`: `x<name> <nets in declared port order> <entity name>
<generics in declared order as name=value>`. -/
def spice_reference (conf : Configuration) (name : String)
    (genericmap portmap : List (String × String)) : Except CodeError String :=
  match portsText conf.ent.port portmap name with
  | .error e => .error e
  | .ok ps =>
    match genericsText conf.ent.generic genericmap with
    | .error e => .error e
    | .ok gs => .ok ("x" ++ name ++ ps ++ " " ++ conf.ent.name ++ gs)

/-- The `CodeArch` implementation of `Code::definition`: the stored definition as a one-element
ordered set. -/
def CodeArch.code_definition (ca : CodeArch) : List Definition :=
  [ca.definition]

/-- The `CodeArch` implementation of `Code::reference`: render the stored template through the
external templating service with the three named bindings; a render failure
becomes `TemplateError`. -/
def CodeArch.code_reference (ca : CodeArch)
    (render : String → RefArgs → Except TemplateRenderError String)
    (name : String) (genericmap portmap : List (String × String)) :
    Except CodeError String :=
  match render ca.reference ⟨name, genericmap, portmap⟩ with
  | .error e => .error (.TemplateError e)
  | .ok s => .ok s

/-- The `Configuration` implementation of `Code::reference`: dispatch on the resolved architecture.
This operation does not recurse and does not touch the child cache. -/
def Configuration.reference (c : Configuration)
    (render : String → RefArgs → Except TemplateRenderError String)
    (name : String) (genericmap portmap : List (String × String)) :
    Except CodeError String :=
  match c.get_arch with
  | some (.code arch) =>
    match Ngspice.get_dialect arch with
    | none => .error .DialectError
    | some ca => ca.code_reference render name genericmap portmap
  | some (.schematic _) => spice_reference c name genericmap portmap
  | none => .error .DialectError

/-- The definition-embedding loop of the toplevel branch of
`spice_definition`: each `Code` definition contributes its text, each
`Library` definition contributes a `.lib <path>` directive (a path that is not
valid text is a fatal `CompileError` carrying the lossy rendering), each
`Primitive` contributes no text; every definition is followed by a newline. -/
def renderDefs : List Definition → Except CodeError String
  | [] => .ok ""
  | d :: ds =>
    match d with
    | .code s =>
      match renderDefs ds with
      | .error e => .error e
      | .ok t => .ok (s ++ "\n" ++ t)
    | .library p =>
      match p.to_str with
      | none => .error (.CompileError p.to_string_lossy)
      | some s =>
        match renderDefs ds with
        | .error e => .error e
        | .ok t => .ok (".lib " ++ s ++ "\n" ++ t)
    | .primitive =>
      match renderDefs ds with
      | .error e => .error e
      | .ok t => .ok ("\n" ++ t)

/-- The reference loop of `spice_definition`: one reference line (followed by
a newline) per instance, threading the child-configuration cache. -/
def refLines (render : String → RefArgs → Except TemplateRenderError String) :
    List (String × Instance) → Configuration → String →
    Except CodeError (String × Configuration)
  | [], c, acc => .ok (acc, c)
  | (name, inst) :: rest, c, acc =>
    let r := c.get_conf name inst
    match r.1.reference render name inst.genericmap inst.portmap with
    | .error e => .error e
    | .ok s => refLines render rest r.2 (acc ++ s ++ "\n")

/-- The ` <port>` columns of the `.subckt` header, in declared order. -/
def portHeader : List String → String
  | [] => ""
  | p :: rest => " " ++ p ++ portHeader rest

/-- The child-definition collection loop of `spice_definition`: for each
instance get the (cached or fresh) child configuration, compute its
definition set, store the child's updated cache back, and merge the
definitions into the ordered deduplicated accumulator. `recdef` is the
recursive call to `Configuration::definition` at the remaining fuel. -/
def spiceCollect
    (recdef : Configuration → Option (Except CodeError (List Definition × Configuration))) :
    List (String × Instance) → Configuration → List Definition →
    Option (Except CodeError (List Definition × Configuration))
  | [], c, acc => some (.ok (acc, c))
  | (name, inst) :: rest, c, acc =>
    let r := c.get_conf name inst
    match recdef r.1 with
    | none => none
    | some (.error e) => some (.error e)
    | some (.ok (ds, child2)) =>
      spiceCollect recdef rest (r.2.set_inst name child2) (indexExtend acc ds)

/-- The body of `spice_definition`, parameterized by the recursive call. -/
def spice_definition_go
    (render : String → RefArgs → Except TemplateRenderError String)
    (recdef : Configuration → Option (Except CodeError (List Definition × Configuration)))
    (sch : Schematic) (conf : Configuration) :
    Option (Except CodeError (List Definition × Configuration)) :=
  if sch.toplevel then
    match spiceCollect recdef sch.instances conf [] with
    | none => none
    | some (.error e) => some (.error e)
    | some (.ok (sub_defs, c1)) =>
      match renderDefs sub_defs with
      | .error e => some (.error e)
      | .ok dt =>
        match refLines render sch.instances c1 "" with
        | .error e => some (.error e)
        | .ok (rt, c2) =>
          some (.ok ([Definition.code
            ("* " ++ conf.ent.name ++ "\n" ++ dt ++ rt ++ ".end\n")], c2))
  else
    match spiceCollect recdef sch.instances conf [] with
    | none => none
    | some (.error e) => some (.error e)
    | some (.ok (defs, c1)) =>
      match refLines render sch.instances c1 "" with
      | .error e => some (.error e)
      | .ok (rt, c2) =>
        some (.ok (indexInsert defs (Definition.code
          (".subckt " ++ conf.ent.name ++ portHeader conf.ent.port ++ "\n" ++ rt ++
            ".ends " ++ conf.ent.name)), c2))

/-- The `Configuration` implementation of `Code::definition`, with fuel: a resolved `Code`
architecture yields the matching dialect's stored definition (no dialect ⇒
`DialectError`); a resolved `Schematic` architecture is synthesized by
`spice_definition`; an unresolved architecture is a `DialectError`. -/
def Configuration.definition
    (render : String → RefArgs → Except TemplateRenderError String) :
    Nat → Configuration → Option (Except CodeError (List Definition × Configuration))
  | 0, _ => none
  | Nat.succ n, c =>
    match c.get_arch with
    | some (.code arch) =>
      match Ngspice.get_dialect arch with
      | none => some (.error .DialectError)
      | some ca => some (.ok (ca.code_definition, c))
    | some (.schematic sch) =>
      spice_definition_go render (Configuration.definition render n) sch c
    | none => some (.error .DialectError)

/-! ### Constructor lemmas for the accessors -/

@[simp] theorem Entity.name_mk (n sy g p a) : (Entity.mk n sy g p a).name = n := rfl

@[simp] theorem Entity.generic_mk (n sy g p a) : (Entity.mk n sy g p a).generic = g := rfl

@[simp] theorem Entity.port_mk (n sy g p a) : (Entity.mk n sy g p a).port = p := rfl

@[simp] theorem Entity.archs_mk (n sy g p a) : (Entity.mk n sy g p a).archs = a := rfl

@[simp] theorem Schematic.toplevel_mk (t i) : (Schematic.mk t i).toplevel = t := rfl

@[simp] theorem Schematic.instances_mk (t i) : (Schematic.mk t i).instances = i := rfl

@[simp] theorem Instance.portmap_mk (pm gm x y e) : (Instance.mk pm gm x y e).portmap = pm := rfl

@[simp] theorem Instance.genericmap_mk (pm gm x y e) :
    (Instance.mk pm gm x y e).genericmap = gm := rfl

@[simp] theorem Instance.entity_mk (pm gm x y e) : (Instance.mk pm gm x y e).entity = e := rfl

@[simp] theorem Configuration.sim_mk (s e a f al) : (Configuration.mk s e a f al).sim = s := rfl

@[simp] theorem Configuration.ent_mk (s e a f al) : (Configuration.mk s e a f al).ent = e := rfl

@[simp] theorem Configuration.arch_mk (s e a f al) : (Configuration.mk s e a f al).arch = a := rfl

@[simp] theorem Configuration.for_inst_mk (s e a f al) :
    (Configuration.mk s e a f al).for_inst = f := rfl

@[simp] theorem Configuration.all_mk (s e a f al) : (Configuration.mk s e a f al).all = al := rfl

/-! ### Helper lemmas -/

theorem alookup_append_of_none {α : Type} {l1 : List (String × α)} {k : String}
    (l2 : List (String × α)) (h : alookup l1 k = none) :
    alookup (l1 ++ l2) k = alookup l2 k := by
  induction l1 with
  | nil => rfl
  | cons p rest ih =>
    obtain ⟨k1, v⟩ := p
    simp only [alookup, List.cons_append] at h ⊢
    by_cases hk : k1 = k
    · rw [if_pos hk] at h
      cases h
    · rw [if_neg hk] at h ⊢
      exact ih h

theorem alookup_self {α : Type} (k : String) (v : α) (l : List (String × α)) :
    alookup ((k, v) :: l) k = some v := by
  simp [alookup]

/-- After a `get_conf` call, the cache of the returned parent holds exactly the
returned child under the requested name. -/
theorem get_conf_lookup (c : Configuration) (nm : String) (inst : Instance) :
    alookup (c.get_conf nm inst).2.for_inst nm = some (c.get_conf nm inst).1 := by
  unfold Configuration.get_conf
  cases h : alookup c.for_inst nm with
  | some child => simp [h]
  | none =>
    simp only [h, Configuration.for_inst_mk]
    rw [alookup_append_of_none _ h]
    exact alookup_self nm _ []

theorem indexInsert_of_mem {l : List Definition} {d : Definition} (h : d ∈ l) :
    indexInsert l d = l := by
  simp [indexInsert, h]

theorem indexInsert_of_not_mem {l : List Definition} {d : Definition} (h : d ∉ l) :
    indexInsert l d = l ++ [d] := by
  simp [indexInsert, h]

theorem mem_indexInsert (l : List Definition) (d a : Definition) :
    a ∈ indexInsert l d ↔ a ∈ l ∨ a = d := by
  by_cases hm : d ∈ l
  · rw [indexInsert_of_mem hm]
    constructor
    · exact Or.inl
    · rintro (h2 | rfl)
      · exact h2
      · exact hm
  · rw [indexInsert_of_not_mem hm]
    simp

theorem nodup_indexInsert {l : List Definition} (h : l.Nodup) (d : Definition) :
    (indexInsert l d).Nodup := by
  by_cases hm : d ∈ l
  · rw [indexInsert_of_mem hm]
    exact h
  · rw [indexInsert_of_not_mem hm]
    simp [List.nodup_append, h, hm]

theorem indexExtend_nil (acc : List Definition) : indexExtend acc [] = acc := rfl

theorem indexExtend_cons (acc : List Definition) (d : Definition) (ds : List Definition) :
    indexExtend acc (d :: ds) = indexExtend (indexInsert acc d) ds := rfl

theorem exists_indexExtend_append (ds acc : List Definition) :
    ∃ t, indexExtend acc ds = acc ++ t := by
  induction ds generalizing acc with
  | nil => exact ⟨[], by rw [indexExtend_nil, List.append_nil]⟩
  | cons d ds ih =>
    rw [indexExtend_cons]
    by_cases hm : d ∈ acc
    · rw [indexInsert_of_mem hm]
      exact ih acc
    · rw [indexInsert_of_not_mem hm]
      obtain ⟨t2, ht2⟩ := ih (acc ++ [d])
      exact ⟨[d] ++ t2, by rw [ht2, List.append_assoc]⟩

theorem nodup_indexExtend {acc : List Definition} (ds : List Definition)
    (h : acc.Nodup) : (indexExtend acc ds).Nodup := by
  induction ds generalizing acc with
  | nil => exact h
  | cons d ds ih => exact ih (nodup_indexInsert h d)

theorem mem_indexExtend_left {acc : List Definition} {a : Definition}
    (ds : List Definition) (h : a ∈ acc) : a ∈ indexExtend acc ds := by
  obtain ⟨t, ht⟩ := exists_indexExtend_append ds acc
  rw [ht]
  exact List.mem_append_left t h

theorem mem_indexExtend_right {ds : List Definition} {a : Definition}
    (acc : List Definition) (h : a ∈ ds) : a ∈ indexExtend acc ds := by
  induction ds generalizing acc with
  | nil => cases h
  | cons d ds ih =>
    rw [indexExtend_cons]
    rcases List.mem_cons.mp h with rfl | h2
    · exact mem_indexExtend_left ds ((mem_indexInsert acc a a).mpr (Or.inr rfl))
    · exact ih _ h2

theorem spiceCollect_cons (recdef) (nm : String) (i : Instance)
    (rest : List (String × Instance)) (c : Configuration) (acc : List Definition) :
    spiceCollect recdef ((nm, i) :: rest) c acc =
      match recdef (c.get_conf nm i).1 with
      | none => none
      | some (.error e) => some (.error e)
      | some (.ok (ds, child2)) =>
        spiceCollect recdef rest ((c.get_conf nm i).2.set_inst nm child2)
          (indexExtend acc ds) := rfl

/-- A successful collection run only ever appends to the accumulator:
insertion order is preserved and first occurrences win. -/
theorem spiceCollect_append (recdef) (l : List (String × Instance)) :
    ∀ c acc out c2, spiceCollect recdef l c acc = some (.ok (out, c2)) →
    ∃ t, out = acc ++ t := by
  induction l with
  | nil =>
    intro c acc out c2 h
    simp only [spiceCollect, Option.some.injEq, Except.ok.injEq, Prod.mk.injEq] at h
    exact ⟨[], by rw [← h.1, List.append_nil]⟩
  | cons p rest ih =>
    obtain ⟨nm, i⟩ := p
    intro c acc out c2 h
    rw [spiceCollect_cons] at h
    cases hr : recdef (c.get_conf nm i).1 with
    | none => rw [hr] at h; cases h
    | some r =>
      rw [hr] at h
      cases r with
      | error e => simp at h
      | ok pr =>
        obtain ⟨ds, child2⟩ := pr
        obtain ⟨t2, ht2⟩ := ih _ _ _ _ h
        obtain ⟨t1, ht1⟩ := exists_indexExtend_append ds acc
        exact ⟨t1 ++ t2, by rw [ht2, ht1, List.append_assoc]⟩

/-- A successful collection run never introduces duplicates. -/
theorem spiceCollect_nodup (recdef) (l : List (String × Instance)) :
    ∀ c acc out c2, spiceCollect recdef l c acc = some (.ok (out, c2)) →
    acc.Nodup → out.Nodup := by
  induction l with
  | nil =>
    intro c acc out c2 h hn
    simp only [spiceCollect, Option.some.injEq, Except.ok.injEq, Prod.mk.injEq] at h
    rw [← h.1]
    exact hn
  | cons p rest ih =>
    obtain ⟨nm, i⟩ := p
    intro c acc out c2 h hn
    rw [spiceCollect_cons] at h
    cases hr : recdef (c.get_conf nm i).1 with
    | none => rw [hr] at h; cases h
    | some r =>
      rw [hr] at h
      cases r with
      | error e => simp at h
      | ok pr =>
        obtain ⟨ds, child2⟩ := pr
        exact ih _ _ _ _ h (nodup_indexExtend ds hn)

/-- In a successful collection run, the definitions computed for the first
instance all end up in the final collection. -/
theorem spiceCollect_head (recdef) (nm : String) (i : Instance)
    (rest : List (String × Instance)) (c : Configuration) (acc : List Definition)
    (out : List Definition) (c2 : Configuration)
    (h : spiceCollect recdef ((nm, i) :: rest) c acc = some (.ok (out, c2))) :
    ∃ ds child2, recdef (c.get_conf nm i).1 = some (.ok (ds, child2)) ∧
      ∀ d ∈ ds, d ∈ out := by
  rw [spiceCollect_cons] at h
  cases hr : recdef (c.get_conf nm i).1 with
  | none => rw [hr] at h; cases h
  | some r =>
    rw [hr] at h
    cases r with
    | error e => simp at h
    | ok pr =>
      obtain ⟨ds, child2⟩ := pr
      refine ⟨ds, child2, rfl, fun d hd => ?_⟩
      obtain ⟨t, ht⟩ := spiceCollect_append recdef rest _ _ _ _ h
      rw [ht]
      exact List.mem_append_left t (mem_indexExtend_right acc hd)

theorem renderDefs_code (s : String) (ds : List Definition) :
    renderDefs (Definition.code s :: ds) =
      Except.map (fun t => s ++ "\n" ++ t) (renderDefs ds) := by
  cases h : renderDefs ds <;> simp [renderDefs, h, Except.map]

theorem renderDefs_primitive (ds : List Definition) :
    renderDefs (Definition.primitive :: ds) =
      Except.map (fun t => "\n" ++ t) (renderDefs ds) := by
  cases h : renderDefs ds <;> simp [renderDefs, h, Except.map]

theorem renderDefs_library_ok {p : PathBuf} {s : String} (ds : List Definition)
    (h : p.to_str = some s) :
    renderDefs (Definition.library p :: ds) =
      Except.map (fun t => ".lib " ++ s ++ "\n" ++ t) (renderDefs ds) := by
  cases h2 : renderDefs ds <;> simp [renderDefs, h, h2, Except.map]

theorem renderDefs_library_bad {p : PathBuf} (ds : List Definition)
    (h : p.to_str = none) :
    renderDefs (Definition.library p :: ds) =
      .error (.CompileError p.to_string_lossy) := by
  simp [renderDefs, h]

/-- A library definition whose path is not representable as text makes the
whole embedding loop fail with a `CompileError` carrying a bad path's lossy
rendering. -/
theorem renderDefs_bad_lib {ds : List Definition} :
    ∀ p : PathBuf, Definition.library p ∈ ds → p.to_str = none →
    ∃ q : PathBuf, q.to_str = none ∧ Definition.library q ∈ ds ∧
      renderDefs ds = .error (.CompileError q.to_string_lossy) := by
  induction ds with
  | nil =>
    intro p h
    cases h
  | cons d rest ih =>
    intro p hmem hbad
    cases d with
    | code s =>
      rcases List.mem_cons.mp hmem with heq | hmem2
      · simp at heq
      · obtain ⟨q, hq1, hq2, hq3⟩ := ih p hmem2 hbad
        exact ⟨q, hq1, List.mem_cons_of_mem _ hq2, by rw [renderDefs_code, hq3]; rfl⟩
    | primitive =>
      rcases List.mem_cons.mp hmem with heq | hmem2
      · simp at heq
      · obtain ⟨q, hq1, hq2, hq3⟩ := ih p hmem2 hbad
        exact ⟨q, hq1, List.mem_cons_of_mem _ hq2, by rw [renderDefs_primitive, hq3]; rfl⟩
    | library p0 =>
      cases hp0 : p0.to_str with
      | none =>
        exact ⟨p0, hp0, List.mem_cons_self _ _, renderDefs_library_bad rest hp0⟩
      | some s =>
        rcases List.mem_cons.mp hmem with heq | hmem2
        · injection heq with heq2
          rw [heq2] at hbad
          rw [hp0] at hbad
          cases hbad
        · obtain ⟨q, hq1, hq2, hq3⟩ := ih p hmem2 hbad
          exact ⟨q, hq1, List.mem_cons_of_mem _ hq2,
            by rw [renderDefs_library_ok rest hp0, hq3]; rfl⟩

/-- The port columns of the reference line as the spec prescribes them: one
column per declared port, in declared order, carrying the bound net. -/
def specPortColumns : List String → List (String × String) → String
  | [], _ => ""
  | p :: rest, pm => " " ++ ((alookup pm p).getD "") ++ specPortColumns rest pm

/-- The generic pairs of the reference line as the spec prescribes them: one
`name=value` pair per declared generic, in declared order. -/
def specGenericPairs : List String → List (String × String) → String
  | [], _ => ""
  | g :: rest, gm => " " ++ g ++ "=" ++ ((alookup gm g).getD "") ++ specGenericPairs rest gm

theorem portsText_total (port : List String) (pm : List (String × String))
    (nm : String) (h : ∀ p ∈ port, (alookup pm p).isSome) :
    portsText port pm nm = .ok (specPortColumns port pm) := by
  induction port with
  | nil => rfl
  | cons p rest ih =>
    have hp := h p (List.mem_cons_self p rest)
    cases hv : alookup pm p with
    | none => rw [hv] at hp; cases hp
    | some v =>
      have ih2 := ih fun q hq => h q (List.mem_cons_of_mem p hq)
      simp [portsText, specPortColumns, hv, ih2]

theorem genericsText_total (generic : List String) (gm : List (String × String))
    (h : ∀ g ∈ generic, (alookup gm g).isSome) :
    genericsText generic gm = .ok (specGenericPairs generic gm) := by
  induction generic with
  | nil => rfl
  | cons g rest ih =>
    have hg := h g (List.mem_cons_self g rest)
    cases hv : alookup gm g with
    | none => rw [hv] at hg; cases hg
    | some v =>
      have ih2 := ih fun q hq => h q (List.mem_cons_of_mem g hq)
      simp [genericsText, specGenericPairs, hv, ih2]

theorem portsText_ext (port : List String) (pm1 pm2 : List (String × String))
    (nm : String) (h : ∀ k, alookup pm1 k = alookup pm2 k) :
    portsText port pm1 nm = portsText port pm2 nm := by
  induction port with
  | nil => rfl
  | cons p rest ih => simp [portsText, h p, ih]

theorem genericsText_ext (generic : List String) (gm1 gm2 : List (String × String))
    (h : ∀ k, alookup gm1 k = alookup gm2 k) :
    genericsText generic gm1 = genericsText generic gm2 := by
  induction generic with
  | nil => rfl
  | cons g rest ih => simp [genericsText, h g, ih]

theorem portsText_first_missing (port : List String) (pm : List (String × String))
    (nm : String) :
    ∀ p, port.find? (fun q => (alookup pm q).isNone) = some p →
    portsText port pm nm = .error (.CompileError ("no " ++ p ++ " in " ++ nm)) := by
  induction port with
  | nil => intro p h; cases h
  | cons q rest ih =>
    intro p h
    cases hv : alookup pm q with
    | none =>
      rw [List.find?_cons] at h
      simp only [hv, Option.isNone_none] at h
      cases h
      simp [portsText, hv]
    | some v =>
      rw [List.find?_cons] at h
      simp only [hv, Option.isNone_some] at h
      simp [portsText, hv, ih p h]

theorem genericsText_first_missing (generic : List String)
    (gm : List (String × String)) :
    ∀ g, generic.find? (fun q => (alookup gm q).isNone) = some g →
    genericsText generic gm = .error (.CompileError g) := by
  induction generic with
  | nil => intro g h; cases h
  | cons q rest ih =>
    intro g h
    cases hv : alookup gm q with
    | none =>
      rw [List.find?_cons] at h
      simp only [hv, Option.isNone_none] at h
      cases h
      simp [genericsText, hv]
    | some v =>
      rw [List.find?_cons] at h
      simp only [hv, Option.isNone_some] at h
      simp [genericsText, hv, ih g h]

/-- Boolean version of "the tier-3 scan accepts this architecture": a schematic
always, a code table when the dialect lookup succeeds. -/
def archSupported : Arch → Bool
  | .schematic _ => true
  | .code cda => (Ngspice.get_dialect cda).isSome

/-- The tier-3 scan is exactly "first architecture in stored order accepted by
`archSupported`". -/
theorem firstSupported_eq_find (l : List (String × Arch)) :
    firstSupported l = (l.find? (fun p => archSupported p.2)).map Prod.snd := by
  induction l with
  | nil => rfl
  | cons p rest ih =>
    obtain ⟨nm, a⟩ := p
    cases a with
    | schematic s => simp [firstSupported, archSupported, List.find?]
    | code cda =>
      by_cases h : (Ngspice.get_dialect cda).isSome
      · simp [firstSupported, archSupported, h, List.find?]
      · simp only [firstSupported, archSupported, h, if_false]
        rw [ih]
        simp [List.find?, archSupported, h]

/-- On a cache hit, `get_conf` returns the cached child and leaves the parent
unchanged, whatever instance is passed. -/
theorem get_conf_hit {c : Configuration} {nm : String} {child : Configuration}
    (inst : Instance) (h : alookup c.for_inst nm = some child) :
    c.get_conf nm inst = (child, c) := by
  simp [Configuration.get_conf, h]

/-! ### Concrete exhibits used by the witnesses -/

/-- A concrete templating service: renders any template `t` to `R:t`. -/
def exRender : String → RefArgs → Except TemplateRenderError String :=
  fun t _ => .ok ("R:" ++ t)

def exCaS : CodeArch := ⟨Definition.code ".model S", "ts"⟩

def exCaN : CodeArch := ⟨Definition.code ".model N", "tn"⟩

def exTblS : CodeDialectArch := ⟨[("spice", exCaS)]⟩

def exTblNS : CodeDialectArch := ⟨[("ngspice", exCaN), ("spice", exCaS)]⟩

def exTblE : CodeDialectArch := ⟨[("vhdl", exCaN)]⟩

def exEntM : Entity := .mk "pmos" .mk ["w"] ["g", "d"] [("rtl", .code exTblS)]

def exInstM1 : Instance := .mk [("g", "in"), ("d", "mid")] [("w", "3")] 0 0 exEntM

def exInstM2 : Instance := .mk [("g", "mid"), ("d", "out")] [("w", "5")] 0 0 exEntM

def exSchInv : Schematic := .mk false [("m1", exInstM1), ("m2", exInstM2)]

def exEntInv : Entity := .mk "inv" .mk [] ["a", "b"] [("s", .schematic exSchInv)]

def exConfInv : Configuration := .mk .mk exEntInv none [] []

def exSchTop : Schematic := .mk true [("m1", exInstM1)]

def exEntTop : Entity := .mk "top" .mk [] [] [("d", .schematic exSchTop)]

def exConfTop : Configuration := .mk .mk exEntTop (some "d") [] []

def exConfBadArch : Configuration := .mk .mk exEntM (some "missing") [] []

def exEntDia : Entity := .mk "dia" .mk [] [] [("a", .code exTblE)]

def exConfDia : Configuration := .mk .mk exEntDia (some "a") [] []

def exEntNoDia : Entity := .mk "nodia" .mk [] [] [("a", .code exTblE)]

def exConfNoDia : Configuration := .mk .mk exEntNoDia none [] []

def exEntOther : Entity := .mk "nmos" .mk [] [] [("r", .code exTblNS)]

def exInstOther : Instance := .mk [] [] 0 0 exEntOther

def exConfM : Configuration := .mk .mk exEntM none [] []

def exEntCh : Entity := .mk "ch" .mk ["w"] [] [("s", .schematic (.mk false []))]

def exInstCh : Instance := .mk [] [] 0 0 exEntCh

def exSchC5 : Schematic := .mk true [("inst1", exInstCh)]

def exEntC5 : Entity := .mk "t5" .mk [] [] [("d", .schematic exSchC5)]

def exConfC5 : Configuration := .mk .mk exEntC5 (some "d") [] []

/-! ### Claim theorems -/

/-- C1: Architecture resolution follows a strict three-tier priority, first
match wins: an explicit architecture name is looked up directly in the
entity's architecture map and its absence is an error (`DialectError` from
both `definition` and `reference`) with no fallback; otherwise a global
override for the entity's name is looked up the same way; otherwise the
fallback scan runs. -/
theorem get_arch_priority (render : String → RefArgs → Except TemplateRenderError String)
    (n : Nat) (c : Configuration) :
    (∀ a, c.arch = some a → c.get_arch = alookup c.ent.archs a) ∧
    (∀ a, c.arch = some a → alookup c.ent.archs a = none →
      Configuration.definition render (n + 1) c = some (.error .DialectError) ∧
      ∀ nm gm pm, c.reference render nm gm pm = .error .DialectError) ∧
    (∀ a, c.arch = none → alookup c.all c.ent.name = some a →
      c.get_arch = alookup c.ent.archs a) ∧
    (c.arch = none → alookup c.all c.ent.name = none →
      c.get_arch = firstSupported c.ent.archs) := by
  refine ⟨?_, ?_, ?_, ?_⟩
  · intro a h
    simp [Configuration.get_arch, h]
  · intro a h h2
    have hga : c.get_arch = none := by simp [Configuration.get_arch, h, h2]
    exact ⟨by simp [Configuration.definition, hga],
      fun nm gm pm => by simp [Configuration.reference, hga]⟩
  · intro a h h2
    simp [Configuration.get_arch, h, h2]
  · intro h h2
    simp [Configuration.get_arch, h, h2]

/-- Witness for the three-tier priority at concrete configurations: an
explicit architecture name resolves directly, and a dangling explicit name is
a `DialectError` from both operations. -/
theorem get_arch_priority_witness :
    exConfTop.get_arch = some (Arch.schematic exSchTop) ∧
    Configuration.definition exRender 1 exConfBadArch = some (.error .DialectError) ∧
    Configuration.reference exConfBadArch exRender "i" [] [] = .error .DialectError := by
  have h1 := (get_arch_priority exRender 0 exConfTop).1 "d" rfl
  have h2 := (get_arch_priority exRender 0 exConfBadArch).2.1 "missing" rfl rfl
  exact ⟨by rw [h1]; rfl, h2.1, h2.2 "i" [] []⟩

/-- C4: the child configuration for an instance name is constructed once, on
first access, by cloning the parent's simulator and override map, binding the
instance's entity and leaving the architecture choice unset; a cached child is
returned as-is with the parent unchanged; and a second request with the same
name returns the same child with the state unchanged. -/
theorem get_conf_memoized (c : Configuration) (nm : String) (inst inst2 : Instance) :
    (alookup c.for_inst nm = none →
      c.get_conf nm inst =
        (Configuration.mk c.sim inst.entity none [] c.all,
         Configuration.mk c.sim c.ent c.arch
           (c.for_inst ++ [(nm, Configuration.mk c.sim inst.entity none [] c.all)]) c.all)) ∧
    (∀ child, alookup c.for_inst nm = some child → c.get_conf nm inst = (child, c)) ∧
    (c.get_conf nm inst).2.get_conf nm inst2 =
      ((c.get_conf nm inst).1, (c.get_conf nm inst).2) := by
  refine ⟨?_, ?_, ?_⟩
  · intro h
    simp [Configuration.get_conf, h]
  · intro child h
    exact get_conf_hit inst h
  · exact get_conf_hit inst2 (get_conf_lookup c nm inst)

/-- Witness for the memoization contract: first access constructs the child
from the parent's simulator and override map with no architecture chosen,
and the second access returns the identical pair. -/
theorem get_conf_memoized_witness :
    exConfInv.get_conf "m1" exInstM1 =
      (Configuration.mk .mk exEntM none [] [],
       Configuration.mk .mk exEntInv none
         [("m1", Configuration.mk .mk exEntM none [] [])] []) ∧
    (exConfInv.get_conf "m1" exInstM1).2.get_conf "m1" exInstM2 =
      ((exConfInv.get_conf "m1" exInstM1).1, (exConfInv.get_conf "m1" exInstM1).2) := by
  have h := get_conf_memoized exConfInv "m1" exInstM1 exInstM2
  exact ⟨h.1 rfl, h.2.2⟩

/-- C10: the cache is keyed solely by the instance name: once a child exists
for a name, a later call with the same name and any other `Instance` argument
returns that cached child (bound to the first call's entity) unchanged. -/
theorem get_conf_keyed_by_name (c : Configuration) (nm : String)
    (inst1 inst2 : Instance) (child c1 : Configuration)
    (h : c.get_conf nm inst1 = (child, c1)) :
    c1.get_conf nm inst2 = (child, c1) ∧
    (alookup c.for_inst nm = none → child.ent = inst1.entity) := by
  constructor
  · have hl := get_conf_lookup c nm inst1
    rw [h] at hl
    exact get_conf_hit inst2 hl
  · intro h0
    have h2 : (c.get_conf nm inst1).1 = Configuration.mk c.sim inst1.entity none [] c.all := by
      simp [Configuration.get_conf, h0]
    rw [h] at h2
    simp only at h2
    rw [h2]
    simp

/-- Witness: after caching a child for name `m1` bound to the pmos entity,
a call with the same name but an instance of a different entity returns the
pmos-bound child and ignores the new instance argument. -/
theorem get_conf_keyed_by_name_witness :
    (Configuration.mk .mk exEntInv none
        [("m1", Configuration.mk .mk exEntM none [] [])] []).get_conf "m1" exInstOther =
      (Configuration.mk .mk exEntM none [] [],
       Configuration.mk .mk exEntInv none
         [("m1", Configuration.mk .mk exEntM none [] [])] []) ∧
    (Configuration.mk .mk exEntM none [] []).ent = exInstM1.entity := by
  have h := get_conf_keyed_by_name exConfInv "m1" exInstM1 exInstOther
    (Configuration.mk .mk exEntM none [] [])
    (Configuration.mk .mk exEntInv none
      [("m1", Configuration.mk .mk exEntM none [] [])] []) rfl
  exact ⟨h.1, h.2 rfl⟩

/-- C6: the Ngspice dialect lookup prefers the `ngspice` entry and falls back
to the generic `spice` entry; a table with neither yields no dialect, and a
configuration resolved to such a table answers `DialectError` from both
`definition` and `reference`. -/
theorem ngspice_dialect_fallback (render : String → RefArgs → Except TemplateRenderError String)
    (n : Nat) (t : CodeDialectArch) (c : Configuration) (nm : String)
    (gm pm : List (String × String)) :
    (∀ ca, alookup t.dialects "ngspice" = some ca → Ngspice.get_dialect t = some ca) ∧
    (alookup t.dialects "ngspice" = none →
      Ngspice.get_dialect t = alookup t.dialects "spice") ∧
    (c.get_arch = some (.code t) → Ngspice.get_dialect t = none →
      Configuration.definition render (n + 1) c = some (.error .DialectError) ∧
      c.reference render nm gm pm = .error .DialectError) := by
  refine ⟨?_, ?_, ?_⟩
  · intro ca h
    simp [Ngspice.get_dialect, h]
  · intro h
    simp [Ngspice.get_dialect, h]
  · intro h hd
    exact ⟨by simp [Configuration.definition, h, hd],
      by simp [Configuration.reference, h, hd]⟩

/-- Witness for the dialect fallback on three concrete tables: only-spice
resolves to the spice entry, both resolve to the ngspice entry, neither gives
no dialect and makes both operations fail with `DialectError`. -/
theorem ngspice_dialect_fallback_witness :
    Ngspice.get_dialect exTblS = some exCaS ∧
    Ngspice.get_dialect exTblNS = some exCaN ∧
    Ngspice.get_dialect exTblE = none ∧
    Configuration.definition exRender 1 exConfDia = some (.error .DialectError) ∧
    Configuration.reference exConfDia exRender "i" [] [] = .error .DialectError := by
  have h1 := (ngspice_dialect_fallback exRender 0 exTblS exConfDia "i" [] []).2.1 rfl
  have h2 := (ngspice_dialect_fallback exRender 0 exTblNS exConfDia "i" [] []).1 exCaN rfl
  have h0 := (ngspice_dialect_fallback exRender 0 exTblE exConfDia "i" [] []).2.1 rfl
  have h3 := (ngspice_dialect_fallback exRender 0 exTblE exConfDia "i" [] []).2.2 rfl rfl
  exact ⟨by rw [h1]; rfl, h2, by rw [h0]; rfl, h3.1, h3.2⟩

/-- C8: with no explicit architecture and no global override, resolution
scans the entity's architectures in stored order and returns the first that is
a schematic or a code table whose dialect lookup succeeds; no match makes
`definition` and `reference` answer `DialectError`. -/
theorem get_arch_fallback_scan (render : String → RefArgs → Except TemplateRenderError String)
    (n : Nat) (c : Configuration) (nm : String) (gm pm : List (String × String))
    (h1 : c.arch = none) (h2 : alookup c.all c.ent.name = none) :
    c.get_arch = (c.ent.archs.find? (fun p => archSupported p.2)).map Prod.snd ∧
    (∀ s, archSupported (.schematic s) = true) ∧
    (∀ cda, archSupported (.code cda) = (Ngspice.get_dialect cda).isSome) ∧
    (c.get_arch = none →
      Configuration.definition render (n + 1) c = some (.error .DialectError) ∧
      c.reference render nm gm pm = .error .DialectError) := by
  refine ⟨?_, fun s => rfl, fun cda => rfl, ?_⟩
  · simp [Configuration.get_arch, h1, h2, firstSupported_eq_find]
  · intro h
    exact ⟨by simp [Configuration.definition, h], by simp [Configuration.reference, h]⟩

/-- Witness for the fallback scan: a schematic architecture is picked by the
scan, and an entity offering only a dialect-less code table yields
`DialectError` from both operations. -/
theorem get_arch_fallback_scan_witness :
    exConfInv.get_arch = some (Arch.schematic exSchInv) ∧
    Configuration.definition exRender 1 exConfNoDia = some (.error .DialectError) ∧
    Configuration.reference exConfNoDia exRender "i" [] [] = .error .DialectError := by
  have h1 := (get_arch_fallback_scan exRender 0 exConfInv "i" [] [] rfl rfl).1
  have h2 := (get_arch_fallback_scan exRender 0 exConfNoDia "i" [] [] rfl rfl).2.2.2 rfl
  exact ⟨by rw [h1]; rfl, h2.1, h2.2⟩

/-- C3: with all declared ports and generics bound, the synthesized reference
line is the prefix `x`, the instance name, the nets in the entity's declared
port order, the entity name, and `name=value` pairs in declared generic order;
and the output only depends on the maps' lookup functions, not their storage
order. -/
theorem spice_reference_declared_order (c : Configuration) (nm : String)
    (gm pm gm2 pm2 : List (String × String))
    (hp : ∀ p ∈ c.ent.port, (alookup pm p).isSome)
    (hg : ∀ g ∈ c.ent.generic, (alookup gm g).isSome) :
    spice_reference c nm gm pm =
      .ok ("x" ++ nm ++ specPortColumns c.ent.port pm ++ " " ++ c.ent.name ++
        specGenericPairs c.ent.generic gm) ∧
    ((∀ k, alookup pm2 k = alookup pm k) → (∀ k, alookup gm2 k = alookup gm k) →
      spice_reference c nm gm2 pm2 = spice_reference c nm gm pm) := by
  constructor
  · simp [spice_reference, portsText_total c.ent.port pm nm hp,
      genericsText_total c.ent.generic gm hg]
  · intro hpk hgk
    unfold spice_reference
    rw [portsText_ext c.ent.port pm2 pm nm hpk, genericsText_ext c.ent.generic gm2 gm hgk]

/-- Witness for the reference-line format: the pmos entity with declared ports
`[g, d]` and generics `[w]` renders `xm1 in mid pmos w=3`, and the permuted
port map renders the identical line. -/
theorem spice_reference_declared_order_witness :
    spice_reference exConfM "m1" [("w", "3")] [("g", "in"), ("d", "mid")] =
      .ok "xm1 in mid pmos w=3" ∧
    spice_reference exConfM "m1" [("w", "3")] [("d", "mid"), ("g", "in")] =
      spice_reference exConfM "m1" [("w", "3")] [("g", "in"), ("d", "mid")] := by
  have h := spice_reference_declared_order exConfM "m1" [("w", "3")]
    [("g", "in"), ("d", "mid")] [("w", "3")] [("d", "mid"), ("g", "in")]
    (by decide) (by decide)
  refine ⟨by rw [h.1]; rfl, h.2 ?_ fun k => rfl⟩
  intro k
  simp only [alookup]
  by_cases h1 : "d" = k <;> by_cases h2 : "g" = k
  · exact absurd (h1.trans h2.symm) (by decide)
  · simp [h1, h2]
  · simp [h1, h2]
  · simp [h1, h2]

/-- C5 (amended): a missing port key makes the synthesized reference fail with
a `CompileError` naming both the missing port and the instance; with all ports
bound, a missing generic key makes it fail with a `CompileError` naming only
the missing generic (not the instance). -/
theorem spice_reference_missing_key (c : Configuration) (nm : String)
    (gm pm : List (String × String)) :
    (∀ p, c.ent.port.find? (fun q => (alookup pm q).isNone) = some p →
      spice_reference c nm gm pm =
        .error (.CompileError ("no " ++ p ++ " in " ++ nm)) ∧
      List.IsInfix p.data ("no " ++ p ++ " in " ++ nm).data ∧
      List.IsInfix nm.data ("no " ++ p ++ " in " ++ nm).data) ∧
    ((∀ p ∈ c.ent.port, (alookup pm p).isSome) →
      ∀ g, c.ent.generic.find? (fun q => (alookup gm q).isNone) = some g →
      spice_reference c nm gm pm = .error (.CompileError g)) := by
  constructor
  · intro p h
    refine ⟨?_, ?_, ?_⟩
    · simp [spice_reference, portsText_first_missing c.ent.port pm nm p h]
    · exact ⟨"no ".data, (" in " ++ nm).data, by simp [String.data_append, List.append_assoc]⟩
    · exact ⟨("no " ++ p ++ " in ").data, [], by simp [String.data_append]⟩
  · intro hp g h
    simp [spice_reference, portsText_total c.ent.port pm nm hp,
      genericsText_first_missing c.ent.generic gm g h]

/-- Counterexample to C5 as stated: synthesizing a toplevel schematic whose
instance `inst1` misses its generic `w` fails with `CompileError "w"`, and the
message does not name the instance. -/
theorem spice_missing_generic_counterexample :
    Configuration.definition exRender 3 exConfC5 = some (.error (.CompileError "w")) ∧
    ¬ List.IsInfix "inst1".data "w".data :=
  ⟨rfl, fun h => absurd h.length_le (by decide)⟩

/-- Witness for the amended missing-binding behavior: a missing port `d` on
instance `m1` yields `CompileError "no d in m1"` (naming both), and a missing
generic `w` yields `CompileError "w"` (naming only the generic). -/
theorem spice_reference_missing_key_witness :
    spice_reference exConfM "m1" [("w", "3")] [("g", "in")] =
      .error (.CompileError "no d in m1") ∧
    List.IsInfix "d".data "no d in m1".data ∧
    List.IsInfix "m1".data "no d in m1".data ∧
    spice_reference exConfM "m1" [] [("g", "in"), ("d", "mid")] =
      .error (.CompileError "w") := by
  have h := spice_reference_missing_key exConfM "m1" [("w", "3")] [("g", "in")]
  have h2 := spice_reference_missing_key exConfM "m1" [] [("g", "in"), ("d", "mid")]
  have ha := h.1 "d" rfl
  have hb := h2.2 (by decide) "w" rfl
  exact ⟨ha.1, ha.2.1, ha.2.2, hb⟩

def exConfInv1 : Configuration :=
  .mk .mk exEntInv none [("m1", exConfM), ("m2", exConfM)] []

/-- C2: synthesizing a non-toplevel schematic collects the child definitions
into an ordered duplicate-free collection (first occurrence wins, so a
sub-entity instantiated several times is emitted exactly once), appends the
enclosing subcircuit definition after them, and every collected child
definition is positioned before that enclosing definition. -/
theorem spice_subckt_dedup (render : String → RefArgs → Except TemplateRenderError String)
    (n : Nat) (sch : Schematic) (c : Configuration) (defs : List Definition)
    (c1 : Configuration)
    (htop : sch.toplevel = false)
    (harch : c.get_arch = some (.schematic sch))
    (hcol : spiceCollect (Configuration.definition render n) sch.instances c [] =
      some (.ok (defs, c1))) :
    defs.Nodup ∧
    (∀ nm i rest, sch.instances = (nm, i) :: rest →
      ∃ ds child2, Configuration.definition render n (c.get_conf nm i).1 =
        some (.ok (ds, child2)) ∧ ∀ d ∈ ds, d ∈ defs) ∧
    (∀ rt c2, refLines render sch.instances c1 "" = .ok (rt, c2) →
      Configuration.definition render (n + 1) c =
        some (.ok (indexInsert defs (Definition.code
          (".subckt " ++ c.ent.name ++ portHeader c.ent.port ++ "\n" ++ rt ++
            ".ends " ++ c.ent.name)), c2)) ∧
      ∀ own, own = Definition.code
          (".subckt " ++ c.ent.name ++ portHeader c.ent.port ++ "\n" ++ rt ++
            ".ends " ++ c.ent.name) →
        (indexInsert defs own).Nodup ∧
        (∀ d ∈ indexInsert defs own, List.count d (indexInsert defs own) = 1) ∧
        (own ∉ defs →
          indexInsert defs own = defs ++ [own] ∧
          ∀ d ∈ defs, List.indexOf d (defs ++ [own]) <
            List.indexOf own (defs ++ [own]))) := by
  have hnd : defs.Nodup :=
    spiceCollect_nodup _ sch.instances c [] defs c1 hcol List.nodup_nil
  refine ⟨hnd, ?_, ?_⟩
  · intro nm i rest heq
    rw [heq] at hcol
    exact spiceCollect_head _ nm i rest c [] defs c1 hcol
  · intro rt c2 hrl
    constructor
    · simp [Configuration.definition, harch, spice_definition_go, htop, hcol, hrl]
    · intro own hown
      refine ⟨nodup_indexInsert hnd own, ?_, ?_⟩
      · intro d hd
        exact List.count_eq_one_of_mem (nodup_indexInsert hnd own) hd
      · intro hnm
        refine ⟨indexInsert_of_not_mem hnm, ?_⟩
        intro d hd
        rw [List.indexOf_append_of_mem hd, List.indexOf_append_of_not_mem hnm]
        have h1 : List.indexOf d defs < defs.length := List.indexOf_lt_length.mpr hd
        have h2 : List.indexOf own [own] = 0 := by simp
        omega

/-- Witness for the non-toplevel deduplication and ordering: the `inv`
schematic instantiates the pmos entity twice, its definition emits the model
definition exactly once and before the `.subckt inv` block. -/
theorem spice_subckt_dedup_witness :
    Configuration.definition exRender 2 exConfInv =
      some (.ok ([Definition.code ".model S",
        Definition.code ".subckt inv a b\nR:ts\nR:ts\n.ends inv"], exConfInv1)) ∧
    List.count (Definition.code ".model S")
      [Definition.code ".model S",
       Definition.code ".subckt inv a b\nR:ts\nR:ts\n.ends inv"] = 1 ∧
    List.indexOf (Definition.code ".model S")
        [Definition.code ".model S",
         Definition.code ".subckt inv a b\nR:ts\nR:ts\n.ends inv"] <
      List.indexOf (Definition.code ".subckt inv a b\nR:ts\nR:ts\n.ends inv")
        [Definition.code ".model S",
         Definition.code ".subckt inv a b\nR:ts\nR:ts\n.ends inv"] := by
  have h := spice_subckt_dedup exRender 1 exSchInv exConfInv
    [Definition.code ".model S"] exConfInv1 rfl rfl rfl
  have h3 := h.2.2 "R:ts\nR:ts\n" exConfInv1 rfl
  have h4 := h3.2 (Definition.code ".subckt inv a b\nR:ts\nR:ts\n.ends inv") rfl
  have h5 := h4.2.2 (by decide)
  refine ⟨by rw [h3.1]; rfl, ?_, ?_⟩
  · exact h4.2.1 (Definition.code ".model S") (by decide)
  · exact h5.2 (Definition.code ".model S") (by decide)

/-- C7: synthesizing a toplevel schematic yields one self-contained
definition: a comment line naming the entity, the collected child definitions
embedded inline (code contributes its text, a library contributes a `.lib`
directive, a primitive contributes no text; a library path not representable
as text is a `CompileError`, which aborts synthesis), one reference line per
instance, and the `.end` terminator. -/
theorem spice_toplevel_shape (render : String → RefArgs → Except TemplateRenderError String)
    (n : Nat) (sch : Schematic) (c : Configuration) (sub_defs : List Definition)
    (c1 : Configuration)
    (htop : sch.toplevel = true)
    (harch : c.get_arch = some (.schematic sch))
    (hcol : spiceCollect (Configuration.definition render n) sch.instances c [] =
      some (.ok (sub_defs, c1))) :
    (∀ dt rt c2, renderDefs sub_defs = .ok dt →
      refLines render sch.instances c1 "" = .ok (rt, c2) →
      Configuration.definition render (n + 1) c =
        some (.ok ([Definition.code
          ("* " ++ c.ent.name ++ "\n" ++ dt ++ rt ++ ".end\n")], c2))) ∧
    (∀ ds, renderDefs (Definition.primitive :: ds) =
      Except.map (fun t => "\n" ++ t) (renderDefs ds)) ∧
    (∀ s ds, renderDefs (Definition.code s :: ds) =
      Except.map (fun t => s ++ "\n" ++ t) (renderDefs ds)) ∧
    (∀ p s ds, PathBuf.to_str p = some s →
      renderDefs (Definition.library p :: ds) =
        Except.map (fun t => ".lib " ++ s ++ "\n" ++ t) (renderDefs ds)) ∧
    (∀ p : PathBuf, Definition.library p ∈ sub_defs → PathBuf.to_str p = none →
      ∃ q : PathBuf, PathBuf.to_str q = none ∧ Definition.library q ∈ sub_defs ∧
        renderDefs sub_defs = .error (.CompileError (PathBuf.to_string_lossy q))) ∧
    (∀ e, renderDefs sub_defs = .error e →
      Configuration.definition render (n + 1) c = some (.error e)) := by
  refine ⟨?_, renderDefs_primitive, renderDefs_code,
    fun p s ds h => renderDefs_library_ok ds h,
    fun p hm hb => renderDefs_bad_lib p hm hb, ?_⟩
  · intro dt rt c2 hrd hrl
    simp [Configuration.definition, harch, spice_definition_go, htop, hcol, hrd, hrl]
  · intro e hre
    simp [Configuration.definition, harch, spice_definition_go, htop, hcol, hre]

/-- Witness for the toplevel shape: the `top` schematic over one pmos instance
synthesizes to a single definition with header comment, inlined model
definition, one reference line and the `.end` terminator. -/
theorem spice_toplevel_shape_witness :
    Configuration.definition exRender 2 exConfTop =
      some (.ok ([Definition.code "* top\n.model S\nR:ts\n.end\n"],
        Configuration.mk .mk exEntTop (some "d")
          [("m1", exConfM)] [])) := by
  have h := spice_toplevel_shape exRender 1 exSchTop exConfTop
    [Definition.code ".model S"]
    (Configuration.mk .mk exEntTop (some "d") [("m1", exConfM)] [])
    rfl rfl rfl
  exact h.1 ".model S\n" "R:ts\n"
    (Configuration.mk .mk exEntTop (some "d") [("m1", exConfM)] []) rfl rfl

end Amscrcuits
